import Mathlib

/-!
Verification of the `Configuration` core of `clia-mod/webrtc`
(`src/peer/configuration.rs`).

Rust strings are modelled as lists of characters (`RStr`); `Vec<T>` as
`List T`.  The single interesting operation is
`Configuration::get_ice_servers`, which clones the stored server list and
strips the query component (everything from the first `?` on) from every
URL that starts with the literal `stun`.
-/

namespace Webrtc

/-- Rust `String` / `&str`, modelled as a list of characters. -/
abbrev RStr := List Char

/-- Modelled from the spec: the struct `crate::ice::ice_server::ICEServer`
is outside this slice; the spec describes each server entry as carrying
one or more raw URLs plus optional credentials (`URLs`, `username`,
`credential`). -/
structure ICEServer where
  urls : List RStr
  username : RStr
  credential : RStr
deriving Repr, DecidableEq

/-- Modelled from the spec: enum restricting which ICE candidate types the
agent may use (`{all, relay}`); defined in `crate::policy`, outside this
slice. -/
inductive ICETransportPolicy
  | all
  | relay
deriving Repr, DecidableEq

/-- Modelled from the spec: media-bundling strategy
(`{balanced, max-compat, max-bundle}`); defined outside this slice. -/
inductive BundlePolicy
  | balanced
  | maxCompat
  | maxBundle
deriving Repr, DecidableEq

/-- Modelled from the spec: rtcp-mux negotiation strategy
(`{negotiate, require}`); defined outside this slice. -/
inductive RTCPMuxPolicy
  | negotiate
  | require
deriving Repr, DecidableEq

/-- Modelled from the spec: controls the shape of SDP offers and answers;
the spec calls the set implementation-defined, and no claim depends on its
members, so a single placeholder member is used. -/
inductive SdpPolicy
  | unspecified
deriving Repr, DecidableEq

/-- Modelled from the spec: opaque authentication material produced by the
external DTLS crate (`dtls::crypto::Certificate`); its contents are never
inspected by this core. -/
structure Certificate where
  raw : List Char
deriving Repr, DecidableEq

/-- `pub struct Configuration` from `src/peer/configuration.rs`. -/
structure Configuration where
  ice_servers : List ICEServer
  ice_transport_policy : ICETransportPolicy
  bundle_policy : BundlePolicy
  rtcp_mux_policy : RTCPMuxPolicy
  peer_identity : RStr
  certificates : List Certificate
  ice_candidate_pool_size : Nat
  sdp_policy : SdpPolicy
deriving Repr, DecidableEq

/-- Default `ICEServer`: every field takes its Rust `Default` value. -/
def ICEServer.default : ICEServer :=
  { urls := [], username := [], credential := [] }

/-- `#[derive(Default)]` for `Configuration`: each field takes its own
`Default` value (`Vec` and `String` empty, `u8` zero; the enum defaults
live outside this slice and are modelled from the spec as the first listed
member of each enum). -/
def Configuration.default : Configuration :=
  { ice_servers := []
    ice_transport_policy := ICETransportPolicy.all
    bundle_policy := BundlePolicy.balanced
    rtcp_mux_policy := RTCPMuxPolicy.negotiate
    peer_identity := []
    certificates := []
    ice_candidate_pool_size := 0
    sdp_policy := SdpPolicy.unspecified }

/-- Rust `str::split(sep)`: the list of maximal separator-free segments.
Splitting the empty string yields one empty segment; every occurrence of
the separator ends a segment, so the result is never empty. -/
def splitChar (sep : Char) : RStr → List RStr
  | [] => [[]]
  | c :: cs =>
    match splitChar sep cs with
    | [] => if c = sep then [[], []] else [[c]]
    | r :: rs => if c = sep then [] :: r :: rs else (c :: r) :: rs

/-- The literal `stun` that `raw_url.starts_with("stun")` tests for. -/
def stunLit : RStr := ['s', 't', 'u', 'n']

/-- The body of the inner loop of `get_ice_servers` applied to one URL:
if the URL starts with `stun`, split on the first `?` and keep `parts[0]`,
otherwise leave it untouched.  `parts[0]` is safe because `splitChar`
never returns an empty list; `headD []` is that safe access. -/
def sanitizeUrl (u : RStr) : RStr :=
  if stunLit.isPrefixOf u then (splitChar '?' u).headD [] else u

/-- The same loop body with the Rust index `parts[0]` embedded as a
fallible lookup: `none` models the out-of-bounds panic. -/
def sanitizeUrlChecked (u : RStr) : Option RStr :=
  if stunLit.isPrefixOf u then (splitChar '?' u).head? else some u

/-- `Configuration::get_ice_servers`: clone the stored list, then rewrite
every `stun`-prefixed URL of every server to the part before its first
`?`. -/
def Configuration.get_ice_servers (c : Configuration) : List ICEServer :=
  c.ice_servers.map fun s => { s with urls := s.urls.map sanitizeUrl }

/-- `get_ice_servers` with the `parts[0]` index embedded fallibly: the
whole call returns `none` exactly when some URL would make `parts[0]`
panic. -/
def Configuration.get_ice_servers_checked (c : Configuration) :
    Option (List ICEServer) :=
  c.ice_servers.mapM fun s =>
    (s.urls.mapM sanitizeUrlChecked).map fun us => { s with urls := us }

/-- The method with its receiver made explicit as state passing.  The Rust
signature is `fn get_ice_servers(&self)`: the receiver is a shared borrow,
so the method cannot write through it; the body clones `self.ice_servers`
and mutates only the clone, so the outgoing state is the incoming one. -/
def Configuration.get_ice_servers_st (c : Configuration) :
    Configuration × List ICEServer :=
  (c, c.get_ice_servers)

/-- The substring of `s` strictly before the first occurrence of `sep`
(all of `s` when `sep` does not occur): the phrasing the spec uses for
the kept part of a split URL.  Compared below against the source-side
`splitChar` / `parts[0]`. -/
def beforeFirst (sep : Char) (s : RStr) : RStr :=
  s.takeWhile fun c => c != sep

theorem splitChar_ne_nil (sep : Char) (s : RStr) : splitChar sep s ≠ [] := by
  cases s with
  | nil => simp [splitChar]
  | cons c cs =>
    by_cases hc : c = sep <;>
      cases h : splitChar sep cs <;> simp [splitChar, h, hc]

theorem splitChar_head? (sep : Char) (s : RStr) :
    (splitChar sep s).head? = some (beforeFirst sep s) := by
  induction s with
  | nil => simp [splitChar, beforeFirst]
  | cons c cs ih =>
    simp only [splitChar]
    cases h : splitChar sep cs with
    | nil => exact absurd h (splitChar_ne_nil sep cs)
    | cons r rs =>
      rw [h] at ih
      by_cases hc : c = sep
      · subst hc
        simp_all [beforeFirst]
      · simp_all [beforeFirst, List.takeWhile_cons, hc]

theorem splitChar_headD (sep : Char) (s : RStr) :
    (splitChar sep s).headD [] = beforeFirst sep s := by
  rw [List.headD_eq_head?, splitChar_head?]
  rfl

theorem sanitizeUrl_of_stun (u : RStr) (h : stunLit.isPrefixOf u) :
    sanitizeUrl u = beforeFirst '?' u := by
  simp [sanitizeUrl, h, splitChar_headD, splitChar_head?]

theorem sanitizeUrl_of_not_stun (u : RStr) (h : ¬ stunLit.isPrefixOf u) :
    sanitizeUrl u = u := by
  simp [sanitizeUrl, h]

theorem sanitizeUrlChecked_eq (u : RStr) :
    sanitizeUrlChecked u = some (sanitizeUrl u) := by
  by_cases h : stunLit.isPrefixOf u
  · simp [sanitizeUrlChecked, sanitizeUrl, h, splitChar_head?, splitChar_headD]
  · simp [sanitizeUrlChecked, sanitizeUrl, h]

theorem beforeFirst_ne_iff (sep : Char) (s : RStr) :
    beforeFirst sep s ≠ s ↔ sep ∈ s := by
  rw [Ne, beforeFirst, List.takeWhile_eq_self_iff]
  simp only [bne_iff_ne, ne_eq, decide_not, decide_eq_true_eq, not_forall]
  constructor
  · rintro ⟨x, hx, hxx⟩
    simp only [not_not] at hxx
    exact hxx ▸ hx
  · intro hmem
    exact ⟨sep, hmem, by simp⟩

theorem stun_prefix_iff (u : RStr) :
    stunLit.isPrefixOf u = true ↔ ∃ v, u = 's' :: 't' :: 'u' :: 'n' :: v := by
  constructor
  · intro h
    rcases List.isPrefixOf_iff_prefix.mp h with ⟨v, hv⟩
    exact ⟨v, by simpa [stunLit] using hv.symm⟩
  · rintro ⟨v, rfl⟩
    simp [stunLit, List.isPrefixOf]

theorem beforeFirst_stun (v : RStr) :
    beforeFirst '?' ('s' :: 't' :: 'u' :: 'n' :: v)
      = 's' :: 't' :: 'u' :: 'n' :: beforeFirst '?' v := by
  simp [beforeFirst, List.takeWhile_cons]

theorem takeWhile_self (p : Char → Bool) (l : RStr) :
    (l.takeWhile p).takeWhile p = l.takeWhile p :=
  List.takeWhile_eq_self_iff.mpr fun _ hx => List.mem_takeWhile_imp hx

theorem beforeFirst_idem (sep : Char) (s : RStr) :
    beforeFirst sep (beforeFirst sep s) = beforeFirst sep s :=
  takeWhile_self _ s

theorem stun_prefix_beforeFirst (u : RStr) (h : stunLit.isPrefixOf u) :
    stunLit.isPrefixOf (beforeFirst '?' u) := by
  rcases (stun_prefix_iff u).mp h with ⟨v, rfl⟩
  rw [beforeFirst_stun]
  exact (stun_prefix_iff _).mpr ⟨beforeFirst '?' v, rfl⟩

theorem sanitizeUrl_idem (u : RStr) :
    sanitizeUrl (sanitizeUrl u) = sanitizeUrl u := by
  by_cases h : stunLit.isPrefixOf u
  · rw [sanitizeUrl_of_stun u h,
      sanitizeUrl_of_stun _ (stun_prefix_beforeFirst u h), beforeFirst_idem]
  · rw [sanitizeUrl_of_not_stun u h, sanitizeUrl_of_not_stun u h]

theorem mapM_of_eq_some {α β : Type} (f : α → Option β) (g : α → β)
    (hf : ∀ a, f a = some (g a)) (l : List α) : l.mapM f = some (l.map g) := by
  induction l with
  | nil => rfl
  | cons a l ih =>
    rw [List.mapM_cons, hf a, ih]
    rfl

theorem sanitizeUrl_stun_lit : sanitizeUrl stunLit = stunLit := by
  decide

theorem sanitizeUrl_stun_query (q : RStr) :
    sanitizeUrl (stunLit ++ '?' :: q) = stunLit := by
  show sanitizeUrl ('s' :: 't' :: 'u' :: 'n' :: '?' :: q) = stunLit
  rw [sanitizeUrl_of_stun _ ((stun_prefix_iff _).mpr ⟨'?' :: q, rfl⟩)]
  rw [beforeFirst_stun]
  simp [beforeFirst, List.takeWhile_cons, stunLit]

/-- C1: for every Configuration and every URL in any entry of its
`ice_servers` that begins with the literal prefix `stun`, the
corresponding URL returned by `get_ice_servers` is the substring of the
original before its first `?`; it differs from the input iff the input
contains a `?`, and a URL with several `?`s keeps only the segment before
the first one. -/
theorem c1_stun_url_query_stripped (c : Configuration) (i j : Nat)
    (s : ICEServer) (u : RStr)
    (hs : c.ice_servers[i]? = some s) (hu : s.urls[j]? = some u)
    (hstun : stunLit.isPrefixOf u) :
    ∃ s2, c.get_ice_servers[i]? = some s2 ∧
      s2.urls[j]? = some (beforeFirst '?' u) ∧
      (beforeFirst '?' u ≠ u ↔ '?' ∈ u) := by
  refine ⟨{ s with urls := s.urls.map sanitizeUrl }, ?_, ?_,
    beforeFirst_ne_iff '?' u⟩
  · simp [Configuration.get_ice_servers, List.getElem?_map, hs]
  · simp [List.getElem?_map, hu, sanitizeUrl_of_stun u hstun]

/-- Concrete server list holding the single URL `stun:a?x?y`. -/
def c1Url : RStr := ['s', 't', 'u', 'n', ':', 'a', '?', 'x', '?', 'y']

def c1Cfg : Configuration :=
  { Configuration.default with
    ice_servers := [{ ICEServer.default with urls := [c1Url] }] }

/-- Witness for C1 at the URL `stun:a?x?y` (two `?` characters). -/
theorem c1_stun_url_query_stripped_witness :
    ∃ s2, c1Cfg.get_ice_servers[0]? = some s2 ∧
      s2.urls[0]? = some (beforeFirst '?' c1Url) ∧
      (beforeFirst '?' c1Url ≠ c1Url ↔ '?' ∈ c1Url) :=
  c1_stun_url_query_stripped c1Cfg 0 0 _ c1Url rfl rfl (by decide)

/-- C2: every URL that does not begin with `stun` (for example `turn:` or
`turns:` URLs) is returned by `get_ice_servers` byte-for-byte equal to the
input, whether or not it contains a `?`. -/
theorem c2_non_stun_url_unchanged (c : Configuration) (i j : Nat)
    (s : ICEServer) (u : RStr)
    (hs : c.ice_servers[i]? = some s) (hu : s.urls[j]? = some u)
    (hstun : ¬ stunLit.isPrefixOf u) :
    ∃ s2, c.get_ice_servers[i]? = some s2 ∧ s2.urls[j]? = some u := by
  refine ⟨{ s with urls := s.urls.map sanitizeUrl }, ?_, ?_⟩
  · simp [Configuration.get_ice_servers, List.getElem?_map, hs]
  · simp [List.getElem?_map, hu, sanitizeUrl_of_not_stun u hstun]

/-- Concrete server list holding the single URL `turn:a?x`. -/
def c2Url : RStr := ['t', 'u', 'r', 'n', ':', 'a', '?', 'x']

def c2Cfg : Configuration :=
  { Configuration.default with
    ice_servers := [{ ICEServer.default with urls := [c2Url] }] }

/-- Witness for C2 at the URL `turn:a?x` (query present, prefix not
`stun`). -/
theorem c2_non_stun_url_unchanged_witness :
    ∃ s2, c2Cfg.get_ice_servers[0]? = some s2 ∧ s2.urls[0]? = some c2Url :=
  c2_non_stun_url_unchanged c2Cfg 0 0 _ c2Url rfl rfl (by decide)

/-- C3: `get_ice_servers` leaves the Configuration unchanged — in the
state-passing embedding of the `&self` method, the outgoing state equals
the incoming one in every field — and the returned list is a derived
copy built by mapping over the stored servers, not the stored sequence
itself. -/
theorem c3_no_mutation (c : Configuration) :
    (c.get_ice_servers_st).1 = c ∧
    (c.get_ice_servers_st).2
      = c.ice_servers.map fun s => { s with urls := s.urls.map sanitizeUrl } :=
  ⟨rfl, rfl⟩

/-- C4: `get_ice_servers` is total: with the Rust index `parts[0]`
embedded as a fallible lookup, the call succeeds on every Configuration
(empty lists, empty URLs and arbitrary malformed URLs included) and
returns the pure result — the lookup is always in bounds because a split
never yields an empty list of parts. -/
theorem c4_total (c : Configuration) :
    c.get_ice_servers_checked = some c.get_ice_servers := by
  unfold Configuration.get_ice_servers_checked Configuration.get_ice_servers
  refine mapM_of_eq_some _ _ (fun s => ?_) _
  rw [mapM_of_eq_some sanitizeUrlChecked sanitizeUrl sanitizeUrlChecked_eq
    s.urls]
  rfl

/-- C5: sanitization is idempotent: a Configuration whose `ice_servers`
field is the list returned by another Configuration's `get_ice_servers`
returns that same list from its own `get_ice_servers`. -/
theorem c5_idempotent (c : Configuration) :
    ({ c with ice_servers := c.get_ice_servers } : Configuration).get_ice_servers
      = c.get_ice_servers := by
  simp only [Configuration.get_ice_servers, List.map_map, Function.comp_def,
    List.map_map, sanitizeUrl_idem]

/-- C6: a Configuration with an empty `ice_servers` list gets an empty
list back from `get_ice_servers`. -/
theorem c6_empty_servers (c : Configuration) (h : c.ice_servers = []) :
    c.get_ice_servers = [] := by
  simp [Configuration.get_ice_servers, h]

/-- Witness for C6 at the all-defaults Configuration. -/
theorem c6_empty_servers_witness :
    Configuration.default.ice_servers = [] ∧
    Configuration.default.get_ice_servers = [] :=
  ⟨rfl, c6_empty_servers Configuration.default rfl⟩

/-- C7: the prefix check and the split are purely lexical: a URL equal to
exactly `stun` (no colon anywhere) is still prefix-matched and split —
unchanged when it has no `?`, and stripped to `stun` when a `?` and an
arbitrary query follow, independent of any `:`. -/
theorem c7_lexical_split (q : RStr) :
    ({ Configuration.default with
        ice_servers :=
          [{ ICEServer.default with urls := [stunLit, stunLit ++ '?' :: q] }] }
      : Configuration).get_ice_servers
      = [{ ICEServer.default with urls := [stunLit, stunLit] }] := by
  simp [Configuration.get_ice_servers, sanitizeUrl_stun_query q,
    sanitizeUrl_stun_lit]

/-- C8: the all-defaults Configuration is valid: its prefetch pool size
is zero, its server and certificate sequences are empty, and every
operation of this core is defined on it. -/
theorem c8_defaults :
    Configuration.default.ice_candidate_pool_size = 0 ∧
    Configuration.default.ice_servers = [] ∧
    Configuration.default.certificates = [] ∧
    Configuration.default.get_ice_servers = [] ∧
    Configuration.default.get_ice_servers_checked = some [] ∧
    Configuration.default.get_ice_servers_st = (Configuration.default, []) :=
  ⟨rfl, rfl, rfl, rfl, rfl, rfl⟩

/-- C9: `get_ice_servers` preserves the structure of the server list: the
output has one server per stored server in the same order, the server at
each position keeps its `username` and `credential` (and differs only in
`urls`), and its URL list maps the stored one element by element, so URL
count and order are preserved as well. -/
theorem c9_structure_preserved (c : Configuration) (i : Nat) (s : ICEServer)
    (hs : c.ice_servers[i]? = some s) :
    c.get_ice_servers.length = c.ice_servers.length ∧
    c.get_ice_servers[i]? = some { s with urls := s.urls.map sanitizeUrl } ∧
    (s.urls.map sanitizeUrl).length = s.urls.length := by
  refine ⟨by simp [Configuration.get_ice_servers], ?_, by simp⟩
  simp [Configuration.get_ice_servers, List.getElem?_map, hs]

/-- Witness for C9 at a one-server Configuration carrying credentials. -/
theorem c9_structure_preserved_witness :
    ({ Configuration.default with
        ice_servers :=
          [{ urls := [c1Url], username := ['j'], credential := ['t'] }] }
      : Configuration).get_ice_servers.length = 1 ∧
    ({ Configuration.default with
        ice_servers :=
          [{ urls := [c1Url], username := ['j'], credential := ['t'] }] }
      : Configuration).get_ice_servers[0]?
      = some { urls := [c1Url].map sanitizeUrl, username := ['j'],
               credential := ['t'] } ∧
    ([c1Url].map sanitizeUrl).length = [c1Url].length := by
  have h := c9_structure_preserved
    { Configuration.default with
      ice_servers :=
        [{ urls := [c1Url], username := ['j'], credential := ['t'] }] }
    0 { urls := [c1Url], username := ['j'], credential := ['t'] } rfl
  exact ⟨h.1, h.2.1, h.2.2⟩

/-- C10: `get_ice_servers` depends only on the stored `ice_servers`
value: two Configurations with equal `ice_servers` fields produce equal
results, so repeated calls on an unmodified Configuration agree. -/
theorem c10_deterministic (c1 c2 : Configuration)
    (h : c1.ice_servers = c2.ice_servers) :
    c1.get_ice_servers = c2.get_ice_servers := by
  simp [Configuration.get_ice_servers, h]

/-- Witness for C10 at two Configurations that differ in `peer_identity`
but share their `ice_servers`. -/
theorem c10_deterministic_witness :
    c1Cfg.ice_servers
      = ({ c1Cfg with peer_identity := ['x'] } : Configuration).ice_servers ∧
    c1Cfg.get_ice_servers
      = ({ c1Cfg with peer_identity := ['x'] } : Configuration).get_ice_servers :=
  ⟨rfl, c10_deterministic _ _ rfl⟩

end Webrtc
